import Mathlib

/-!
Verification development for the subprocess streaming and lifecycle engine of
the Lyon desktop application (source: `apps/web/src-tauri/src/lib.rs`).

The development shallowly embeds, from the source:
  * the whole-buffer output decoder of `start_ai_stream`'s stdout task
    (single-JSON / JSONL / raw-fallback classification), together with an
    executable model of `serde_json::from_str` on character lists;
  * the process registry (`ProcessMap`) and the registration performed by
    `start_ai_stream`;
  * the lifecycle state machine formed by the completion watcher task
    (`completion_task`), the cancellation command (`cancel_ai_stream`) and the
    child process, as an interleaving transition system.

Strings are modelled as `List Char` (`Str`).  Byte sequences reaching the
decoder are modelled after `String::from_utf8_lossy` has been applied, i.e. as
character lists.
-/

abbrev Str := List Char

def strL (s : String) : Str := s.toList

/-- Whitespace recognised by JSON (RFC 8259), as skipped by `serde_json`. -/
def jsonWsChars : Str := [' ', '\t', '\n', '\r']

def isJsonWs (c : Char) : Bool := decide (c ∈ jsonWsChars)

/-- The Unicode `White_Space` code points, the set trimmed by Rust's
`str::trim` / `char::is_whitespace`. -/
def rustWsChars : Str :=
  [' ', '\t', '\n', '\r', '\u000B', '\u000C', '\u0085', ' ', ' ',
   ' ', ' ', ' ', ' ', ' ', ' ', ' ',
   ' ', ' ', ' ', ' ', ' ', ' ', ' ',
   ' ', '　']

def isRustWs (c : Char) : Bool := decide (c ∈ rustWsChars)

/-- `str::trim_start`. -/
def trimLeftWs (s : Str) : Str := s.dropWhile isRustWs

/-- `str::trim_end`. -/
def trimRightWs (s : Str) : Str := (s.reverse.dropWhile isRustWs).reverse

/-- Rust `str::trim`: removes leading and trailing whitespace. -/
def rustTrim (s : Str) : Str := trimLeftWs (trimRightWs s)

/-- Split at every newline, keeping a (possibly empty) final segment. -/
def splitNl : Str → List Str
  | [] => [[]]
  | c :: rest =>
    if c = '\n' then [] :: splitNl rest
    else
      match splitNl rest with
      | [] => [[c]]
      | l :: ls => (c :: l) :: ls

/-- Strip one trailing carriage return, as `str::lines` does per line. -/
def stripCr (l : Str) : Str := if l.getLast? = some '\r' then l.dropLast else l

/-- Rust `str::lines`: newline-terminated or newline-separated lines; a final
empty segment produced by a trailing newline is not a line; each line is
stripped of one trailing `\r`. -/
def rustLines (s : Str) : List Str :=
  let segs := splitNl s
  let segs := if segs.getLast? = some [] then segs.dropLast else segs
  segs.map stripCr

/-- `serde_json::Value`, restricted to what the decoder inspects.  Numbers keep
their raw token characters (the decoder never reads numeric values). -/
inductive Json where
  | null : Json
  | bool (b : Bool) : Json
  | num (raw : Str) : Json
  | str (s : Str) : Json
  | arr (items : List Json) : Json
  | obj (fields : List (Str × Json)) : Json

/-- `Value::get(key)`: field lookup on objects, `None` otherwise.  With
duplicate keys `serde_json`'s map building keeps the last occurrence, so the
lookup returns the last binding. -/
def Json.get (j : Json) (key : Str) : Option Json :=
  match j with
  | Json.obj fields =>
    fields.foldl (fun acc p => if p.1 = key then some p.2 else acc) none
  | _ => none

/-- `Value::as_str`. -/
def Json.asStr : Json → Option Str
  | Json.str s => some s
  | _ => none

/-- `Value::as_array`. -/
def Json.asArr : Json → Option (List Json)
  | Json.arr items => some items
  | _ => none

/-- `value.get(key).and_then(|v| v.as_str())`. -/
def Json.getStr (j : Json) (key : Str) : Option Str := (j.get key).bind Json.asStr

/-- `value.get(key).and_then(|v| v.as_array())`. -/
def Json.getArrF (j : Json) (key : Str) : Option (List Json) :=
  (j.get key).bind Json.asArr

def skipWs (s : Str) : Str := s.dropWhile isJsonWs

def escChar (c : Char) : Option Char :=
  if c = '"' then some '"'
  else if c = '\\' then some '\\'
  else if c = '/' then some '/'
  else if c = 'n' then some '\n'
  else if c = 't' then some '\t'
  else if c = 'r' then some '\r'
  else if c = 'b' then some (Char.ofNat 8)
  else if c = 'f' then some (Char.ofNat 12)
  else none

def hexVal (c : Char) : Option Nat :=
  if c.isDigit then some (c.toNat - 48)
  else if 'a' ≤ c ∧ c ≤ 'f' then some (c.toNat - 87)
  else if 'A' ≤ c ∧ c ≤ 'F' then some (c.toNat - 55)
  else none

/-- Parse the body of a JSON string literal (after the opening quote), up to
and including the closing quote.  Unescaped control characters are rejected,
as by `serde_json`.  `\uXXXX` escapes are decoded directly (surrogate pairs
are not recombined; no input in this development uses them). -/
def parseStringBody : Nat → Str → Option (Str × Str)
  | 0, _ => none
  | _, [] => none
  | Nat.succ fuel, c :: rest =>
    if c = '"' then some ([], rest)
    else if c = '\\' then
      match rest with
      | [] => none
      | e :: rest2 =>
        if e = 'u' then
          match rest2 with
          | a :: b :: c2 :: d :: rest3 =>
            match hexVal a, hexVal b, hexVal c2, hexVal d with
            | some x1, some x2, some x3, some x4 =>
              match parseStringBody fuel rest3 with
              | some (tail, rem) =>
                some (Char.ofNat (((x1 * 16 + x2) * 16 + x3) * 16 + x4) :: tail, rem)
              | none => none
            | _, _, _, _ => none
          | _ => none
        else
          match escChar e with
          | some d =>
            match parseStringBody fuel rest2 with
            | some (tail, rem) => some (d :: tail, rem)
            | none => none
          | none => none
    else if c.toNat < 32 then none
    else
      match parseStringBody fuel rest with
      | some (tail, rem) => some (c :: tail, rem)
      | none => none

/-- JSON integer part: `0` or a nonzero digit followed by digits. -/
def chompInt : Str → Option Str
  | [] => none
  | c :: rest =>
    if c = '0' then some rest
    else if c.isDigit then some (rest.dropWhile Char.isDigit)
    else none

/-- Optional fraction part. -/
def chompFrac (s : Str) : Option Str :=
  match s with
  | [] => some []
  | c :: rest =>
    if c = '.' then
      match rest with
      | [] => none
      | d :: _ => if d.isDigit then some (rest.dropWhile Char.isDigit) else none
    else some (c :: rest)

/-- Optional exponent part. -/
def chompExp (s : Str) : Option Str :=
  match s with
  | [] => some []
  | c :: rest =>
    if c = 'e' ∨ c = 'E' then
      let rest2 :=
        match rest with
        | [] => rest
        | s2 :: r2 => if s2 = '+' ∨ s2 = '-' then r2 else rest
      match rest2 with
      | [] => none
      | d :: _ => if d.isDigit then some (rest2.dropWhile Char.isDigit) else none
    else some (c :: rest)

def parseNumber (s : Str) : Option (Json × Str) :=
  let body := match s with
    | [] => s
    | c :: rest => if c = '-' then rest else s
  match chompInt body with
  | none => none
  | some r1 =>
    match chompFrac r1 with
    | none => none
    | some r2 =>
      match chompExp r2 with
      | none => none
      | some r3 => some (Json.num (s.take (s.length - r3.length)), r3)

mutual

/-- One JSON value, preceded by optional whitespace; returns the rest of the
input.  Fuel bounds the recursion depth; `parseJson` supplies enough for any
input it is ever applied to. -/
def parseValue : Nat → Str → Option (Json × Str)
  | 0, _ => none
  | Nat.succ fuel, s0 =>
    match skipWs s0 with
    | [] => none
    | c :: rest =>
      if c = '{' then
        match skipWs rest with
        | [] => none
        | c2 :: rest2 =>
          if c2 = '}' then some (Json.obj [], rest2)
          else
            match parseMembers fuel (c2 :: rest2) with
            | some (ms, rem) => some (Json.obj ms, rem)
            | none => none
      else if c = '[' then
        match skipWs rest with
        | [] => none
        | c2 :: rest2 =>
          if c2 = ']' then some (Json.arr [], rest2)
          else
            match parseItems fuel (c2 :: rest2) with
            | some (vs, rem) => some (Json.arr vs, rem)
            | none => none
      else if c = '"' then
        match parseStringBody (rest.length + 1) rest with
        | some (str, rem) => some (Json.str str, rem)
        | none => none
      else if c = 't' then
        match rest with
        | 'r' :: 'u' :: 'e' :: rem => some (Json.bool true, rem)
        | _ => none
      else if c = 'f' then
        match rest with
        | 'a' :: 'l' :: 's' :: 'e' :: rem => some (Json.bool false, rem)
        | _ => none
      else if c = 'n' then
        match rest with
        | 'u' :: 'l' :: 'l' :: rem => some (Json.null, rem)
        | _ => none
      else if c = '-' ∨ c.isDigit then parseNumber (c :: rest)
      else none

/-- Object members, starting at the first key's opening quote. -/
def parseMembers : Nat → Str → Option (List (Str × Json) × Str)
  | 0, _ => none
  | Nat.succ fuel, s0 =>
    match skipWs s0 with
    | [] => none
    | c :: rest =>
      if c = '"' then
        match parseStringBody (rest.length + 1) rest with
        | none => none
        | some (key, r1) =>
          match skipWs r1 with
          | [] => none
          | c2 :: r2 =>
            if c2 = ':' then
              match parseValue fuel r2 with
              | none => none
              | some (v, r3) =>
                match skipWs r3 with
                | [] => none
                | c3 :: r4 =>
                  if c3 = ',' then
                    match parseMembers fuel r4 with
                    | some (ms, r5) => some ((key, v) :: ms, r5)
                    | none => none
                  else if c3 = '}' then some ([(key, v)], r4)
                  else none
            else none
      else none

/-- Array items, starting at the first item. -/
def parseItems : Nat → Str → Option (List Json × Str)
  | 0, _ => none
  | Nat.succ fuel, s0 =>
    match parseValue fuel s0 with
    | none => none
    | some (v, r1) =>
      match skipWs r1 with
      | [] => none
      | c :: r2 =>
        if c = ',' then
          match parseItems fuel r2 with
          | some (vs, r3) => some (v :: vs, r3)
          | none => none
        else if c = ']' then some ([v], r2)
        else none

end

/-- `serde_json::from_str::<Value>`: one JSON document, with only whitespace
allowed before and after it. -/
def parseJson (s : Str) : Option Json :=
  match parseValue (s.length + 1) s with
  | some (j, rem) => if skipWs rem = [] then some j else none
  | none => none

/-! ## The output decoder

Embedding of the stdout task of `start_ai_stream` (lib.rs lines 281-373): once
the full stdout has been read, classify it and emit `ai-content` events.  The
source emits through `app.emit`; the model returns the list of emitted events
in order.  A failed `read_to_end` emits nothing and is outside this model.
-/

/-- `AIContentEvent` (lib.rs lines 139-144); `process_id` is omitted, it is the
same constant for every event of one run. -/
structure AIContentEvent where
  event_type : Str
  text : Str
deriving DecidableEq

/-- The text extracted from one JSONL line by the Codex branch (lib.rs lines
336-345): the line must parse as JSON, have an `item` field whose `type` field
is the string `agent_message`, and the item's `text` field must be a string. -/
def lineAgentText (line : Str) : Option Str :=
  match parseJson line with
  | none => none
  | some json_value =>
    match json_value.get (strL "item") with
    | none => none
    | some item =>
      if item.getStr (strL "type") = some (strL "agent_message") then
        item.getStr (strL "text")
      else none

/-- One iteration of the JSONL accumulator loop (lib.rs lines 335-347):
`extracted_text.push_str(text); extracted_text.push('\n')` when the line
matches, otherwise leave the accumulator unchanged. -/
def agentFold (acc : Str) (line : Str) : Str :=
  match lineAgentText line with
  | some t => acc ++ t ++ ['\n']
  | none => acc

/-- The JSONL accumulator loop over all lines, in order. -/
def extractAgentTexts (ls : List Str) : Str := ls.foldl agentFold []

/-- The whole-buffer decoder (lib.rs lines 294-370).  Branch order as in the
source: empty check, single-JSON parse (`result` string field, then `content`
array field, then raw), JSONL extraction, raw fallback. -/
def decodeStdout (output : Str) : List AIContentEvent :=
  if rustTrim output = [] then []
  else
    match parseJson output with
    | some json_value =>
      match json_value.getStr (strL "result") with
      | some result_text => [⟨strL "text_delta", result_text⟩]
      | none =>
        match json_value.getArrF (strL "content") with
        | some content =>
          content.filterMap (fun item =>
            (item.getStr (strL "text")).map (fun t => ⟨strL "text_delta", t⟩))
        | none => [⟨strL "text_delta", output⟩]
    | none =>
      let extracted := extractAgentTexts (rustLines output)
      if extracted = [] then [⟨strL "text_delta", output⟩]
      else [⟨strL "text_delta", rustTrim extracted⟩]

/-- Newline-joined concatenation, following the spec's words ("the
newline-joined concatenation of the T_i"); compared against the decoder's
accumulator form. -/
def newlineJoin : List Str → Str
  | [] => []
  | [t] => t
  | t :: ts => t ++ '\n' :: newlineJoin ts

/-! ## The lifecycle state machine

Interleaving model of one tracked process after a successful `start_ai_stream`
call: the completion watcher (`completion_task`, lib.rs lines 415-498), the
child process, and any number of `cancel_ai_stream` invocations (lib.rs lines
507-540).  Reader tasks only produce content/stderr events, which are not
lifecycle events; their completion wait (bounded by 5s) is part of the
watcher's `natCleanup` phase and has no further observable effect here.

`cancel_ai_stream` runs entirely under the registry mutex: lookup-and-remove,
abort of the reader tasks, the oneshot send, and its `cancelled` emission are
one critical section with respect to the registry (`cancelStep`), but the
emission itself is a separate step (`cancelEmit`) so that the watcher's kill
may interleave between the oneshot send and the emission, as it can in the
source. -/

inductive EvKind where
  | cancelled : EvKind
  | complete : EvKind
  | error : EvKind
deriving DecidableEq

/-- Program counter of the completion watcher. -/
inductive CompPC where
  | selecting : CompPC    -- at the tokio::select! between child.wait() and cancel_rx
  | natCleanup : CompPC   -- natural branch: defensive SIGTERM + bounded reader wait
  | natEmit : CompPC      -- natural branch: registry entry removed, about to emit
  | killing : CompPC      -- cancel branch: SIGTERM, 100ms grace, SIGKILL, reap
  | done : CompPC         -- watcher returned
deriving DecidableEq

structure SysState where
  exitOk : Bool        -- fixed: would the child's natural exit status be success
  exited : Bool        -- child has exited naturally (child.wait() is ready)
  signal : Bool        -- the oneshot cancel signal has been sent
  registry : Bool      -- the entry for this process id is present in the map
  killed : Bool        -- the cancel branch has terminated the process group
  cancelPending : Bool -- a cancel call removed the entry but has not emitted yet
  pc : CompPC
  events : List EvKind -- terminal lifecycle events emitted so far, in order
deriving DecidableEq

/-- State right after `start_ai_stream` inserted the registry entry and
spawned the watcher. -/
def initState (exitOk : Bool) : SysState :=
  { exitOk := exitOk, exited := false, signal := false, registry := true,
    killed := false, cancelPending := false, pc := CompPC.selecting, events := [] }

/-- The registry-locked part of `cancel_ai_stream` (lib.rs lines 513-539):
remove the entry if present; when found, abort the reader tasks and send the
oneshot; the `cancelled` emission becomes pending.  Both branches return
`Ok(())`. -/
def cancelStep (s : SysState) : SysState × Except Str Unit :=
  if s.registry then
    ({ s with registry := false, signal := true, cancelPending := true },
     Except.ok ())
  else (s, Except.ok ())

inductive Act where
  | childExit : Act     -- the OS delivers the child's natural exit
  | selectNatural : Act -- select! resolves with child.wait()
  | selectCancel : Act  -- select! resolves with cancel_rx
  | killGroup : Act     -- SIGTERM group, 100ms grace, SIGKILL group, reap, return
  | natRemove : Act     -- natural branch: map.remove(&process_id)
  | natEmitEv : Act     -- natural branch: emit "complete" or "error"
  | cancelCall : Act    -- a cancel_ai_stream invocation (its locked section)
  | cancelEmit : Act    -- the pending "cancelled" emission of a cancel call
deriving DecidableEq

/-- One interleaving step.  An action whose guard does not hold leaves the
state unchanged (it is not schedulable there). -/
def step (s : SysState) : Act → SysState
  | Act.childExit =>
    if s.exited then s else { s with exited := true }
  | Act.selectNatural =>
    if s.pc = CompPC.selecting ∧ s.exited then { s with pc := CompPC.natCleanup }
    else s
  | Act.selectCancel =>
    if s.pc = CompPC.selecting ∧ s.signal then { s with pc := CompPC.killing }
    else s
  | Act.killGroup =>
    if s.pc = CompPC.killing then { s with killed := true, pc := CompPC.done }
    else s
  | Act.natRemove =>
    if s.pc = CompPC.natCleanup then
      { s with registry := false, pc := CompPC.natEmit }
    else s
  | Act.natEmitEv =>
    if s.pc = CompPC.natEmit then
      { s with pc := CompPC.done,
               events := s.events ++ [if s.exitOk then EvKind.complete else EvKind.error] }
    else s
  | Act.cancelCall => (cancelStep s).1
  | Act.cancelEmit =>
    if s.cancelPending then
      { s with cancelPending := false, events := s.events ++ [EvKind.cancelled] }
    else s

def run (s : SysState) (acts : List Act) : SysState := acts.foldl step s

/-- Number of natural terminal events ("complete" or "error") emitted. -/
def natCount (evs : List EvKind) : Nat :=
  evs.count EvKind.complete + evs.count EvKind.error

/-! ## The process registry and `start_ai_stream`'s registration

The registry (`ProcessMap`, lib.rs line 118) is a mutex-protected
`HashMap<String, ProcessHandle>`, modelled as an association list with
`HashMap::insert` semantics (replace the value when the key exists).  The
`ProcessHandle` (abort handles + oneshot sender) is opaque here. -/

abbrev Handle := Nat

def lookupReg : List (Str × Handle) → Str → Option Handle
  | [], _ => none
  | (k2, h) :: rest, k => if k2 = k then some h else lookupReg rest k

/-- `HashMap::insert`: replaces the stored value when the key is present,
otherwise adds the binding. -/
def insertReg : List (Str × Handle) → Str → Handle → List (Str × Handle)
  | [], k, h => [(k, h)]
  | (k2, h2) :: rest, k, h =>
    if k2 = k then (k2, h) :: rest else (k2, h2) :: insertReg rest k h

/-- Environment outcomes of the fallible launcher steps of `start_ai_stream`:
whether `cmd.spawn()` succeeds and whether the stdout/stderr pipes are
available after spawn. -/
structure StartEnv where
  spawnOk : Bool
  stdoutPipe : Bool
  stderrPipe : Bool
deriving DecidableEq

deriving instance DecidableEq for Except

structure StartResult where
  ret : Except Str Str                -- the command's Result<String, String>
  reg : List (Str × Handle)           -- the registry after the call
  eventsEmitted : List EvKind         -- lifecycle events emitted during the call
  tasksSpawned : Bool                 -- were reader/watcher tasks spawned
deriving DecidableEq

/-- The sequential skeleton of `start_ai_stream` (lib.rs lines 226-505):
resolve the process id (line 234), spawn (line 255), capture the pipes (lines
266-267), spawn the reader tasks, insert the registry entry (lines 400-406),
spawn the watcher, return the id.  On each failure the function returns the
error immediately: no task has been spawned for the error paths shown, no
registry entry exists, and no event has been emitted. -/
def startStep (env : StartEnv) (command : Str) (requested : Option Str)
    (genId : Str) (h : Handle) (reg : List (Str × Handle)) : StartResult :=
  let pid := requested.getD genId
  if env.spawnOk = false then
    ⟨Except.error (strL "Failed to spawn " ++ command), reg, [], false⟩
  else if env.stdoutPipe = false then
    ⟨Except.error (strL "Failed to capture stdout"), reg, [], false⟩
  else if env.stderrPipe = false then
    ⟨Except.error (strL "Failed to capture stderr"), reg, [], false⟩
  else
    ⟨Except.ok pid, insertReg reg pid h, [], true⟩

/-- Two JSONL lines, every one an `agent_message` object; the first text has a
leading space. -/
def c3input : Str :=
  strL "\x7b\"item\":\x7b\"type\":\"agent_message\",\"text\":\" a\"\x7d\x7d\n\x7b\"item\":\x7b\"type\":\"agent_message\",\"text\":\"b\"\x7d\x7d"

/-- A one-line JSONL output: it is also a valid single JSON document, so the
decoder's single-JSON branch captures it (the tie-break of the source). -/
def c3single : Str :=
  strL "\x7b\"item\":\x7b\"type\":\"agent_message\",\"text\":\"hi\"\x7d\x7d"

/-- A single JSON document with a `content` array none of whose elements
carries a string `text` field. -/
def c6input : Str := strL "\x7b\"content\":[]\x7d"

/-- Inductive invariant of the lifecycle machine: event counts are tied to the
signal/pending flags, natural terminal events only appear once the watcher has
reached `done`, and a present registry entry means nothing has happened yet. -/
def SysInv (s : SysState) : Prop :=
  (s.registry = true → s.events = [] ∧ s.signal = false ∧ s.cancelPending = false) ∧
  (s.events.count EvKind.cancelled
    = (if s.signal = true ∧ s.cancelPending = false then 1 else 0)) ∧
  (s.pc ≠ CompPC.done → natCount s.events = 0) ∧
  natCount s.events ≤ 1 ∧
  (s.pc = CompPC.killing → s.signal = true) ∧
  (s.pc = CompPC.natEmit → s.registry = false) ∧
  (s.pc = CompPC.done ∧ s.cancelPending = false → s.events ≠ []) ∧
  (s.killed = true → s.signal = true) ∧
  (s.signal = true → s.registry = false) ∧
  (s.cancelPending = true → s.signal = true)

/-! ## Whitespace, trimming and parsing lemmas -/

theorem dropWhile_head_false {α : Type} {p : α → Bool} :
    ∀ {l : List α} {c : α} {r : List α}, l.dropWhile p = c :: r → p c = false := by
  intro l
  induction l with
  | nil => intro c r h; exact List.noConfusion h
  | cons a t ih =>
    intro c r h
    rw [List.dropWhile_cons] at h
    by_cases ha : p a = true
    · rw [if_pos ha] at h; exact ih h
    · rw [if_neg ha] at h
      cases h
      exact Bool.eq_false_iff.mpr ha

theorem mem_of_mem_dropWhile {α : Type} {p : α → Bool} {c : α} {l : List α}
    (h : c ∈ l.dropWhile p) : c ∈ l :=
  (List.dropWhile_sublist p).subset h

theorem rustTrim_eq_nil_all_ws {s : Str} (h : rustTrim s = []) :
    ∀ c ∈ s, isRustWs c = true := by
  intro c hc
  unfold rustTrim trimLeftWs trimRightWs at h
  have h2 := List.dropWhile_eq_nil_iff.mp h
  have hsplit := List.takeWhile_append_dropWhile isRustWs s.reverse
  have hc2 : c ∈ s.reverse := List.mem_reverse.mpr hc
  rw [← hsplit] at hc2
  rcases List.mem_append.mp hc2 with h1 | h1
  · exact List.mem_takeWhile_imp h1
  · exact h2 c (List.mem_reverse.mpr h1)

theorem all_ws_rustTrim_nil {s : Str} (h : ∀ c ∈ s, isRustWs c = true) :
    rustTrim s = [] := by
  unfold rustTrim trimLeftWs trimRightWs
  have h1 : s.reverse.dropWhile isRustWs = [] :=
    List.dropWhile_eq_nil_iff.mpr (fun x hx => h x (List.mem_reverse.mp hx))
  rw [h1]
  rfl

theorem rustTrim_ne_nil {s : Str} {c : Char} (hc : c ∈ s) (hw : isRustWs c = false) :
    rustTrim s ≠ [] := by
  intro h
  have := rustTrim_eq_nil_all_ws h c hc
  rw [hw] at this
  exact Bool.noConfusion this

theorem trimRightWs_append_ws {s : Str} {c : Char} (hw : isRustWs c = true) :
    trimRightWs (s ++ [c]) = trimRightWs s := by
  unfold trimRightWs
  rw [List.reverse_append]
  simp [List.dropWhile_cons, hw]

theorem rustTrim_append_nl (s : Str) : rustTrim (s ++ ['\n']) = rustTrim s := by
  unfold rustTrim
  rw [trimRightWs_append_ws (by decide)]

theorem rustWs_ne {c : Char} (d : Char) (hrw : isRustWs c = true)
    (hd : isRustWs d = false) : c ≠ d := by
  intro he
  subst he
  rw [hrw] at hd
  exact Bool.noConfusion hd

theorem rustWs_not_digit {c : Char} (hrw : isRustWs c = true) : c.isDigit = false := by
  have hm : c ∈ rustWsChars := of_decide_eq_true hrw
  unfold rustWsChars at hm
  simp only [List.mem_cons, List.not_mem_nil, or_false] at hm
  rcases hm with rfl | rfl | rfl | rfl | rfl | rfl | rfl | rfl | rfl | rfl | rfl | rfl |
    rfl | rfl | rfl | rfl | rfl | rfl | rfl | rfl | rfl | rfl | rfl | rfl | rfl <;> decide

theorem parseValue_none_of_all_ws {s : Str} (n : Nat)
    (h : ∀ c ∈ s, isRustWs c = true) : parseValue n s = none := by
  cases n with
  | zero => rfl
  | succ m =>
    cases hsw : skipWs s with
    | nil => simp [parseValue, hsw]
    | cons c rest =>
      have hcs : c ∈ s := by
        unfold skipWs at hsw
        exact mem_of_mem_dropWhile (hsw ▸ List.mem_cons_self c rest)
      have hrw : isRustWs c = true := h c hcs
      simp only [parseValue, hsw]
      rw [if_neg (rustWs_ne '{' hrw (by decide)),
          if_neg (rustWs_ne '[' hrw (by decide)),
          if_neg (rustWs_ne '"' hrw (by decide)),
          if_neg (rustWs_ne 't' hrw (by decide)),
          if_neg (rustWs_ne 'f' hrw (by decide)),
          if_neg (rustWs_ne 'n' hrw (by decide)),
          if_neg]
      intro hor
      rcases hor with h1 | h1
      · exact rustWs_ne '-' hrw (by decide) h1
      · rw [rustWs_not_digit hrw] at h1
        exact Bool.noConfusion h1

theorem parseJson_some_rustTrim_ne {s : Str} {j : Json} (h : parseJson s = some j) :
    rustTrim s ≠ [] := by
  intro htrim
  have hws := rustTrim_eq_nil_all_ws htrim
  have hpv : parseValue (s.length + 1) s = none := parseValue_none_of_all_ws _ hws
  rw [parseJson, hpv] at h
  exact Option.noConfusion h

theorem splitNl_ne_nil (s : Str) : splitNl s ≠ [] := by
  induction s with
  | nil => simp [splitNl]
  | cons c rest ih =>
    simp only [splitNl]
    by_cases hc : c = '\n'
    · simp [hc]
    · rw [if_neg hc]
      cases h : splitNl rest with
      | nil => simp
      | cons l ls => simp

theorem mem_splitNl {s : Str} {l : Str} (hl : l ∈ splitNl s) : ∀ c ∈ l, c ∈ s := by
  induction s generalizing l with
  | nil =>
    simp [splitNl] at hl
    subst hl
    intro c hc
    exact absurd hc (List.not_mem_nil c)
  | cons a rest ih =>
    intro c hc
    simp only [splitNl] at hl
    by_cases ha : a = '\n'
    · rw [if_pos ha] at hl
      rcases List.mem_cons.mp hl with h1 | h1
      · subst h1; exact absurd hc (List.not_mem_nil c)
      · exact List.mem_cons_of_mem a (ih h1 c hc)
    · rw [if_neg ha] at hl
      cases hsp : splitNl rest with
      | nil => exact absurd hsp (splitNl_ne_nil rest)
      | cons l0 ls =>
        rw [hsp] at hl
        rcases List.mem_cons.mp hl with h1 | h1
        · subst h1
          rcases List.mem_cons.mp hc with h2 | h2
          · rw [h2]; exact List.mem_cons_self a rest
          · have hm : l0 ∈ splitNl rest := by
              rw [hsp]; exact List.mem_cons_self l0 ls
            exact List.mem_cons_of_mem a (ih hm c h2)
        · have hm : l ∈ splitNl rest := by
            rw [hsp]; exact List.mem_cons_of_mem l0 h1
          exact List.mem_cons_of_mem a (ih hm c hc)

theorem mem_rustLines {s l : Str} (hl : l ∈ rustLines s) : ∀ c ∈ l, c ∈ s := by
  intro c hc
  simp only [rustLines] at hl
  rcases List.mem_map.mp hl with ⟨l0, hl0, hmap⟩
  have hc0 : c ∈ l0 := by
    rw [← hmap] at hc
    unfold stripCr at hc
    split at hc
    · exact (List.dropLast_sublist l0).subset hc
    · exact hc
  have hl0' : l0 ∈ splitNl s := by
    split at hl0
    · exact (List.dropLast_sublist (splitNl s)).subset hl0
    · exact hl0
  exact mem_splitNl hl0' c hc0

/-! ## Accumulator lemmas for the JSONL branch -/

theorem agentFold_foldl_none (ls : List Str) (acc : Str)
    (h : ∀ l ∈ ls, lineAgentText l = none) : ls.foldl agentFold acc = acc := by
  induction ls generalizing acc with
  | nil => rfl
  | cons l t ih =>
    rw [List.foldl_cons]
    have h1 : agentFold acc l = acc := by
      unfold agentFold
      rw [h l (List.mem_cons_self l t)]
    rw [h1]
    exact ih acc (fun x hx => h x (List.mem_cons_of_mem l hx))

theorem agentFold_foldl_forall2 {ls ts : List Str}
    (h : List.Forall₂ (fun l t => lineAgentText l = some t) ls ts) :
    ∀ acc : Str,
      ls.foldl agentFold acc = acc ++ (ts.map (fun t => t ++ ['\n'])).flatten := by
  induction h with
  | nil => intro acc; simp
  | @cons a b l1 l2 h1 h2 ih =>
    intro acc
    rw [List.foldl_cons]
    have hstep : agentFold acc a = acc ++ b ++ ['\n'] := by
      unfold agentFold
      rw [h1]
    rw [hstep, ih]
    simp [List.append_assoc]

theorem flatten_map_nl (ts : List Str) (hne : ts ≠ []) :
    (ts.map (fun t => t ++ ['\n'])).flatten = newlineJoin ts ++ ['\n'] := by
  induction ts with
  | nil => exact absurd rfl hne
  | cons t rest ih =>
    cases rest with
    | nil => simp [newlineJoin]
    | cons t2 rest2 =>
      simp only [List.map_cons, List.flatten_cons]
      rw [show ((t2 :: rest2).map (fun t => t ++ ['\n'])).flatten
            = List.flatten (List.map (fun t => t ++ ['\n']) (t2 :: rest2)) from rfl] at ih
      rw [List.map_cons, List.flatten_cons] at ih
      have ih2 := ih (by simp)
      rw [ih2]
      show t ++ ['\n'] ++ (newlineJoin (t2 :: rest2) ++ ['\n'])
      = (t ++ '\n' :: newlineJoin (t2 :: rest2)) ++ ['\n']
      simp [List.append_assoc]

/-! ## Decoder branch lemmas -/

theorem decodeStdout_result {output : Str} {j : Json} {r : Str}
    (hp : parseJson output = some j) (hr : j.getStr (strL "result") = some r) :
    decodeStdout output = [⟨strL "text_delta", r⟩] := by
  unfold decodeStdout
  rw [if_neg (parseJson_some_rustTrim_ne hp)]
  simp only [hp, hr]

theorem decodeStdout_content {output : Str} {j : Json} {arr : List Json}
    (hp : parseJson output = some j) (hr : j.getStr (strL "result") = none)
    (ha : j.getArrF (strL "content") = some arr) :
    decodeStdout output =
      arr.filterMap (fun item =>
        (item.getStr (strL "text")).map
          (fun t => ({ event_type := strL "text_delta", text := t } : AIContentEvent))) := by
  unfold decodeStdout
  rw [if_neg (parseJson_some_rustTrim_ne hp)]
  simp only [hp, hr, ha]

theorem decodeStdout_unknown_json {output : Str} {j : Json}
    (hp : parseJson output = some j) (hr : j.getStr (strL "result") = none)
    (ha : j.getArrF (strL "content") = none) :
    decodeStdout output = [⟨strL "text_delta", output⟩] := by
  unfold decodeStdout
  rw [if_neg (parseJson_some_rustTrim_ne hp)]
  simp only [hp, hr, ha]

theorem decodeStdout_jsonl {output : Str} (hne : rustTrim output ≠ [])
    (hp : parseJson output = none) :
    decodeStdout output =
      (if extractAgentTexts (rustLines output) = []
       then [⟨strL "text_delta", output⟩]
       else [⟨strL "text_delta", rustTrim (extractAgentTexts (rustLines output))⟩]) := by
  unfold decodeStdout
  rw [if_neg hne]
  simp only [hp]

/-- Every event the decoder ever emits is a text delta: the source constructs
each `AIContentEvent` with `event_type: "text_delta".to_string()`. -/
theorem decodeStdout_event_type {s : Str} {e : AIContentEvent}
    (he : e ∈ decodeStdout s) : e.event_type = strL "text_delta" := by
  by_cases hne : rustTrim s = []
  · unfold decodeStdout at he
    rw [if_pos hne] at he
    exact absurd he (List.not_mem_nil e)
  · cases hp : parseJson s with
    | none =>
      rw [decodeStdout_jsonl hne hp] at he
      split at he <;> (rw [List.mem_singleton] at he; subst he; rfl)
    | some j =>
      cases hr : j.getStr (strL "result") with
      | some r =>
        rw [decodeStdout_result hp hr] at he
        rw [List.mem_singleton] at he; subst he; rfl
      | none =>
        cases ha : j.getArrF (strL "content") with
        | some arr =>
          rw [decodeStdout_content hp hr ha] at he
          rcases List.mem_filterMap.mp he with ⟨item, _hitem, hmap⟩
          rcases Option.map_eq_some'.mp hmap with ⟨t, _ht, hev⟩
          rw [← hev]
        | none =>
          rw [decodeStdout_unknown_json hp hr ha] at he
          rw [List.mem_singleton] at he; subst he; rfl

theorem extractAgentTexts_nil {ls : List Str} (h : ∀ l ∈ ls, lineAgentText l = none) :
    extractAgentTexts ls = [] := agentFold_foldl_none ls [] h

theorem exists_not_ws_of_rustTrim_ne {s : Str} (h : rustTrim s ≠ []) :
    ∃ c ∈ s, isRustWs c = false := by
  by_contra hall
  push_neg at hall
  refine h (all_ws_rustTrim_nil (fun c hc => ?_))
  have := hall c hc
  simpa using this

/-! ## Claims about the decoder -/

/-- Claim C4: for every standard-output byte sequence that parses as a single
JSON value containing a string field named `result`, the decoder emits exactly
one text-delta fragment whose text equals that string, and no other content
fragments for that output. -/
theorem c4_single_json_result (output : Str) (j : Json) (r : Str)
    (hp : parseJson output = some j)
    (hr : j.getStr (strL "result") = some r) :
    decodeStdout output = [{ event_type := strL "text_delta", text := r }] :=
  decodeStdout_result hp hr

/-- Witness for C4 at the output `{"result":"done"}`. -/
theorem c4_single_json_result_witness :
    decodeStdout (strL "\x7b\"result\":\"done\"\x7d")
      = [{ event_type := strL "text_delta", text := strL "done" }] :=
  c4_single_json_result (strL "\x7b\"result\":\"done\"\x7d")
    (Json.obj [(strL "result", Json.str (strL "done"))]) (strL "done") rfl rfl

/-- Counterexample to claim C3 as stated, in two parts.  (1) On a JSONL output
whose every line is an `agent_message` object with texts " a" and "b", the
newline-joined concatenation trimmed of TRAILING whitespace is " a\nb", but
the decoder applies `str::trim` (both ends, lib.rs line 355) and emits "a\nb".
(2) A one-line JSONL output of the required shape is also a valid single JSON
document, so the single-JSON branch wins the tie-break and the raw output is
emitted, not the extracted text "hi". -/
theorem c3_cex :
    (List.Forall₂ (fun l t => lineAgentText l = some t) (rustLines c3input)
        [strL " a", strL "b"] ∧
      decodeStdout c3input
        = [{ event_type := strL "text_delta", text := strL "a\nb" }] ∧
      decodeStdout c3input
        ≠ [{ event_type := strL "text_delta", text := strL " a\nb" }]) ∧
    (rustLines c3single = [c3single] ∧
      lineAgentText c3single = some (strL "hi") ∧
      decodeStdout c3single = [{ event_type := strL "text_delta", text := c3single }] ∧
      decodeStdout c3single
        ≠ [{ event_type := strL "text_delta", text := strL "hi" }]) := by
  refine ⟨⟨List.Forall₂.cons rfl (List.Forall₂.cons rfl List.Forall₂.nil), rfl,
    by decide⟩, rfl, rfl, rfl, by decide⟩

/-- Claim C3 (amended): for every output that does not itself parse as one JSON
document and whose lines each parse to an `agent_message` object with text
`T_i`, the decoder emits exactly one text-delta fragment equal to the
newline-joined concatenation of the `T_i` trimmed of LEADING AND trailing
whitespace. -/
theorem c3_jsonl_concat (output : Str) (ts : List Str)
    (hp : parseJson output = none) (hts : ts ≠ [])
    (hlines : List.Forall₂ (fun l t => lineAgentText l = some t) (rustLines output) ts) :
    decodeStdout output
      = [{ event_type := strL "text_delta", text := rustTrim (newlineJoin ts) }] := by
  obtain ⟨l0, lrest, hl⟩ : ∃ l0 lrest, rustLines output = l0 :: lrest := by
    cases hrl : rustLines output with
    | nil =>
      rw [hrl] at hlines
      cases hlines
      exact absurd rfl hts
    | cons a b => exact ⟨a, b, rfl⟩
  have h0 : ∃ t0, lineAgentText l0 = some t0 := by
    rw [hl] at hlines
    cases hlines with
    | cons h1 _h2 => exact ⟨_, h1⟩
  obtain ⟨t0, ht0⟩ := h0
  have hpj0 : ∃ j0, parseJson l0 = some j0 := by
    unfold lineAgentText at ht0
    cases hpl : parseJson l0 with
    | none => rw [hpl] at ht0; simp at ht0
    | some j0 => exact ⟨j0, rfl⟩
  obtain ⟨j0, hj0⟩ := hpj0
  obtain ⟨c, hc, hcw⟩ := exists_not_ws_of_rustTrim_ne (parseJson_some_rustTrim_ne hj0)
  have hco : c ∈ output :=
    mem_rustLines (by rw [hl]; exact List.mem_cons_self l0 lrest) c hc
  have hne : rustTrim output ≠ [] := rustTrim_ne_nil hco hcw
  rw [decodeStdout_jsonl hne hp]
  have hext : extractAgentTexts (rustLines output)
      = (ts.map (fun t => t ++ ['\n'])).flatten := by
    unfold extractAgentTexts
    simpa using agentFold_foldl_forall2 hlines []
  rw [hext, flatten_map_nl ts hts, if_neg (by simp), rustTrim_append_nl]

/-- Witness for the amended C3 at the concrete two-line JSONL output. -/
theorem c3_jsonl_concat_witness :
    decodeStdout c3input
      = [{ event_type := strL "text_delta",
           text := rustTrim (newlineJoin [strL " a", strL "b"]) }] :=
  c3_jsonl_concat c3input [strL " a", strL "b"] rfl (by decide)
    (List.Forall₂.cons rfl (List.Forall₂.cons rfl List.Forall₂.nil))

/-- Counterexample to claim C5 as stated: the whitespace-only output " " is
neither valid single JSON nor contains any agent_message line, yet the decoder
emits NO fragment at all (the trimmed-empty check, lib.rs line 294), not one
raw text-delta fragment. -/
theorem c5_cex :
    parseJson (strL " ") = none ∧
    (∀ l ∈ rustLines (strL " "), lineAgentText l = none) ∧
    decodeStdout (strL " ") = [] :=
  ⟨rfl, by decide, rfl⟩

/-- Claim C5 (amended): for any output WHOSE TRIMMED FORM IS NON-EMPTY that is
neither a valid single JSON document nor contains any line parsing to an
agent_message object, the decoder emits exactly one text-delta fragment whose
text is the raw input verbatim. -/
theorem c5_raw_fallback (output : Str)
    (hne : rustTrim output ≠ [])
    (hp : parseJson output = none)
    (hlines : ∀ l ∈ rustLines output, lineAgentText l = none) :
    decodeStdout output = [{ event_type := strL "text_delta", text := output }] := by
  rw [decodeStdout_jsonl hne hp, if_pos (extractAgentTexts_nil hlines)]

/-- Witness for the amended C5 at the output "hello". -/
theorem c5_raw_fallback_witness :
    decodeStdout (strL "hello")
      = [{ event_type := strL "text_delta", text := strL "hello" }] :=
  c5_raw_fallback (strL "hello") (by decide) rfl (by decide)

/-- Counterexample to claim C6 as stated: `{"content":[]}` has non-empty
trimmed form, but the decoder's content-array loop (lib.rs lines 307-320)
emits one fragment per text-bearing element — here zero fragments. -/
theorem c6_cex : rustTrim c6input ≠ [] ∧ decodeStdout c6input = [] :=
  ⟨by decide, rfl⟩

/-- Claim C6 (amended): for every output with non-empty trimmed form, the
decoder emits at least one content fragment, EXCEPT when the output parses as
a single JSON document without a string `result` field whose `content` field
is an array with no element carrying a string `text` field (then it emits
nothing).  Decoding itself never fails. -/
theorem c6_nonempty_emits (output : Str)
    (hne : rustTrim output ≠ [])
    (hcontent : ∀ j, parseJson output = some j →
      j.getStr (strL "result") = none →
      ∀ arr, j.getArrF (strL "content") = some arr →
      ∃ it ∈ arr, (it.getStr (strL "text")).isSome = true) :
    decodeStdout output ≠ [] := by
  cases hp : parseJson output with
  | none =>
    rw [decodeStdout_jsonl hne hp]
    split <;> simp
  | some j =>
    cases hr : j.getStr (strL "result") with
    | some r => rw [decodeStdout_result hp hr]; simp
    | none =>
      cases ha : j.getArrF (strL "content") with
      | none => rw [decodeStdout_unknown_json hp hr ha]; simp
      | some arr =>
        rw [decodeStdout_content hp hr ha]
        obtain ⟨it, hit, hsome⟩ := hcontent j hp hr arr ha
        intro hnil
        rw [List.filterMap_eq_nil_iff] at hnil
        have hmap := hnil it hit
        rw [Option.map_eq_none'] at hmap
        rw [hmap] at hsome
        exact Bool.noConfusion hsome

/-- Witness for the amended C6 at the output "hi". -/
theorem c6_nonempty_emits_witness : decodeStdout (strL "hi") ≠ [] :=
  c6_nonempty_emits (strL "hi") (by decide)
    (fun j hj => by
      rw [show parseJson (strL "hi") = none from rfl] at hj
      exact Option.noConfusion hj)

/-- Counterexample to claim C10: there is no input on which the engine emits a
content fragment of a kind other than "text_delta" — no thinking-start,
thinking-delta or block-boundary fragment is ever produced; the stdout task is
the engine's sole content decoder and labels every fragment "text_delta". -/
theorem c10_cex :
    ¬ ∃ (s : Str) (e : AIContentEvent),
        e ∈ decodeStdout s ∧ e.event_type ≠ strL "text_delta" := by
  rintro ⟨s, e, he, hne⟩
  exact hne (decodeStdout_event_type he)

/-- Claim C10 (amended): the engine has a single whole-buffer decoder and no
secondary event-level decoder; every content fragment it emits has kind
"text_delta". -/
theorem c10_only_text_delta (s : Str) (e : AIContentEvent)
    (he : e ∈ decodeStdout s) : e.event_type = strL "text_delta" :=
  decodeStdout_event_type he

/-- Witness for the amended C10 at the output "hey". -/
theorem c10_only_text_delta_witness :
    ({ event_type := strL "text_delta", text := strL "hey" } : AIContentEvent).event_type
      = strL "text_delta" :=
  c10_only_text_delta (strL "hey")
    { event_type := strL "text_delta", text := strL "hey" } (by decide)

/-! ## Lifecycle machine invariant -/

theorem natCount_append (evs : List EvKind) (e : EvKind) :
    natCount (evs ++ [e]) = natCount evs + natCount [e] := by
  unfold natCount
  rw [List.count_append, List.count_append]
  omega

theorem count_cancelled_append (evs : List EvKind) (e : EvKind) :
    (evs ++ [e]).count EvKind.cancelled
      = evs.count EvKind.cancelled + [e].count EvKind.cancelled :=
  List.count_append EvKind.cancelled evs [e]

theorem inv_init (b : Bool) : SysInv (initState b) := by
  unfold SysInv initState natCount
  simp

theorem inv_step {s : SysState} (a : Act) (h : SysInv s) : SysInv (step s a) := by
  obtain ⟨h1, h2, h3, h4, h5, h6, h7, h8, h9, h10⟩ := h
  cases a with
  | childExit =>
    simp only [step]
    split
    · exact ⟨h1, h2, h3, h4, h5, h6, h7, h8, h9, h10⟩
    · exact ⟨h1, h2, h3, h4, h5, h6, h7, h8, h9, h10⟩
  | selectNatural =>
    simp only [step]
    split
    · next hc =>
      refine ⟨h1, h2, fun _ => h3 ?_, h4, ?_, ?_, ?_, h8, h9, h10⟩
      · rw [hc.1]; decide
      · intro hh; exact CompPC.noConfusion hh
      · intro hh; exact CompPC.noConfusion hh
      · intro hh; exact CompPC.noConfusion hh.1
    · exact ⟨h1, h2, h3, h4, h5, h6, h7, h8, h9, h10⟩
  | selectCancel =>
    simp only [step]
    split
    · next hc =>
      refine ⟨h1, h2, fun _ => h3 ?_, h4, fun _ => hc.2, ?_, ?_, h8, h9, h10⟩
      · rw [hc.1]; decide
      · intro hh; exact CompPC.noConfusion hh
      · intro hh; exact CompPC.noConfusion hh.1
    · exact ⟨h1, h2, h3, h4, h5, h6, h7, h8, h9, h10⟩
  | killGroup =>
    simp only [step]
    split
    · next hc =>
      have hsig : s.signal = true := h5 hc
      refine ⟨h1, h2, ?_, h4, ?_, ?_, ?_, fun _ => hsig, h9, h10⟩
      · intro hh; exact absurd rfl hh
      · intro hh; exact CompPC.noConfusion hh
      · intro hh; exact CompPC.noConfusion hh
      · intro hh
        have hone : s.events.count EvKind.cancelled = 1 := by
          rw [h2, if_pos ⟨hsig, hh.2⟩]
        intro hev
        rw [hev] at hone
        exact Nat.noConfusion hone
    · exact ⟨h1, h2, h3, h4, h5, h6, h7, h8, h9, h10⟩
  | natRemove =>
    simp only [step]
    split
    · next hc =>
      refine ⟨?_, h2, fun _ => h3 ?_, h4, ?_, fun _ => rfl, ?_, h8, fun _ => rfl, h10⟩
      · intro hh; exact Bool.noConfusion hh
      · rw [hc]; decide
      · intro hh; exact CompPC.noConfusion hh
      · intro hh; exact CompPC.noConfusion hh.1
    · exact ⟨h1, h2, h3, h4, h5, h6, h7, h8, h9, h10⟩
  | natEmitEv =>
    simp only [step]
    split
    · next hc =>
      have hzero : natCount s.events = 0 := h3 (by rw [hc]; decide)
      refine ⟨?_, ?_, ?_, ?_, ?_, ?_, ?_, h8, h9, h10⟩
      · intro hh
        exact absurd (h6 hc) (by rw [hh]; exact Bool.noConfusion)
      · rw [count_cancelled_append, h2]
        cases s.exitOk <;> simp
      · intro hh; exact absurd rfl hh
      · rw [natCount_append, hzero]
        cases s.exitOk <;> simp [natCount]
      · intro hh; exact CompPC.noConfusion hh
      · intro hh; exact CompPC.noConfusion hh
      · intro _; simp
    · exact ⟨h1, h2, h3, h4, h5, h6, h7, h8, h9, h10⟩
  | cancelCall =>
    simp only [step, cancelStep]
    split
    · next hreg =>
      obtain ⟨hev, hsig, hpend⟩ := h1 hreg
      refine ⟨?_, ?_, ?_, h4, fun _ => rfl, fun _ => rfl, ?_, fun _ => rfl,
        fun _ => rfl, fun _ => rfl⟩
      · intro hh; exact Bool.noConfusion hh
      · rw [hev]; simp
      · intro _; rw [hev]; rfl
      · intro hh; exact Bool.noConfusion hh.2
    · exact ⟨h1, h2, h3, h4, h5, h6, h7, h8, h9, h10⟩
  | cancelEmit =>
    simp only [step]
    split
    · next hpend =>
      have hsig : s.signal = true := h10 hpend
      refine ⟨?_, ?_, ?_, ?_, h5, h6, ?_, h8, h9, fun hh => Bool.noConfusion hh⟩
      · intro hh
        exact absurd (h1 hh).2.2 (by rw [hpend]; exact Bool.noConfusion)
      · rw [count_cancelled_append, h2, if_neg, if_pos ⟨hsig, rfl⟩]
        · rfl
        · intro hh; rw [hpend] at hh; exact Bool.noConfusion hh.2
      · intro hh
        rw [natCount_append, h3 hh]
        rfl
      · rw [natCount_append]
        have hc0 : natCount [EvKind.cancelled] = 0 := rfl
        omega
      · intro _; simp
    · exact ⟨h1, h2, h3, h4, h5, h6, h7, h8, h9, h10⟩

theorem inv_run (acts : List Act) (s : SysState) (h : SysInv s) : SysInv (run s acts) := by
  induction acts generalizing s with
  | nil => exact h
  | cons a t ih =>
    show SysInv (List.foldl step (step s a) t)
    exact ih (step s a) (inv_step a h)

theorem cancelStep_registry_false {s : SysState} (h : s.registry = false) :
    cancelStep s = (s, Except.ok ()) := by
  unfold cancelStep
  rw [h]
  simp

theorem cancelStep_snd_ok (s : SysState) : (cancelStep s).2 = Except.ok () := by
  unfold cancelStep
  split <;> rfl

theorem cancelStep_fst_registry (s : SysState) : (cancelStep s).1.registry = false := by
  unfold cancelStep
  split
  · rfl
  · next hr =>
    simp only
    exact Bool.not_eq_true s.registry ▸ Bool.eq_false_iff.mpr hr

/-! ## Claims about the lifecycle machine -/

/-- Counterexample to claim C1 as stated: when `cancel_ai_stream` is invoked
after the watcher has taken the natural-exit branch of the select but before
its registry removal (the reader-wait window of up to 5s), the cancel path
finds the entry, removes it and emits "cancelled", and the watcher afterwards
still removes (a no-op) and emits "complete": TWO terminal events for the one
identifier. -/
theorem c1_cex :
    (run (initState true)
      [Act.childExit, Act.selectNatural, Act.cancelCall, Act.cancelEmit,
       Act.natRemove, Act.natEmitEv]).events
      = [EvKind.cancelled, EvKind.complete] := by decide

/-- Claim C1 (amended): for every identifier returned by `start`, at most one
"cancelled" event and at most one natural terminal ("complete"/"error") event
are emitted (so at most two terminal events, two only under the cancel /
natural-completion race); once the watcher has finished and no cancelled
emission is pending, at least one terminal event has been emitted; and the
identifier is absent from the registry at and after the first terminal
emission. -/
theorem c1_terminal_events (exitOk : Bool) (acts : List Act) :
    (run (initState exitOk) acts).events.count EvKind.cancelled ≤ 1 ∧
    natCount (run (initState exitOk) acts).events ≤ 1 ∧
    ((run (initState exitOk) acts).pc = CompPC.done ∧
        (run (initState exitOk) acts).cancelPending = false →
      (run (initState exitOk) acts).events ≠ []) ∧
    ((run (initState exitOk) acts).events ≠ [] →
      (run (initState exitOk) acts).registry = false) := by
  have h := inv_run acts (initState exitOk) (inv_init exitOk)
  obtain ⟨h1, h2, _h3, h4, _h5, _h6, h7, _h8, _h9, _h10⟩ := h
  refine ⟨?_, h4, h7, ?_⟩
  · rw [h2]
    split <;> omega
  · intro hev
    cases hreg : (run (initState exitOk) acts).registry with
    | false => rfl
    | true => exact absurd (h1 hreg).1 hev

/-- Witness for the amended C1 on a natural-completion trace. -/
theorem c1_terminal_events_witness :
    (run (initState true)
        [Act.childExit, Act.selectNatural, Act.natRemove, Act.natEmitEv]).events.count
        EvKind.cancelled ≤ 1 ∧
    (run (initState true)
        [Act.childExit, Act.selectNatural, Act.natRemove, Act.natEmitEv]).events ≠ [] ∧
    (run (initState true)
        [Act.childExit, Act.selectNatural, Act.natRemove, Act.natEmitEv]).registry
      = false := by
  have h := c1_terminal_events true
    [Act.childExit, Act.selectNatural, Act.natRemove, Act.natEmitEv]
  exact ⟨h.1, h.2.2.1 (by decide), h.2.2.2 (by decide)⟩

/-- Claim C2: cancelling twice in succession, or cancelling after the process
has completed naturally, never errors and never duplicates terminal events;
a cancel finding the identifier already removed is a successful no-op. -/
theorem c2_cancel_idempotent (exitOk : Bool) (acts : List Act) :
    (cancelStep (run (initState exitOk) acts)).2 = Except.ok () ∧
    cancelStep (cancelStep (run (initState exitOk) acts)).1
      = ((cancelStep (run (initState exitOk) acts)).1, Except.ok ()) ∧
    (1 ≤ natCount (run (initState exitOk) acts).events →
      cancelStep (run (initState exitOk) acts)
        = (run (initState exitOk) acts, Except.ok ())) ∧
    ((run (initState exitOk) acts).registry = false →
      cancelStep (run (initState exitOk) acts)
        = (run (initState exitOk) acts, Except.ok ())) ∧
    (run (initState exitOk)
        (acts ++ [Act.cancelCall, Act.cancelEmit, Act.cancelCall,
          Act.cancelEmit])).events.count EvKind.cancelled ≤ 1 := by
  have h := inv_run acts (initState exitOk) (inv_init exitOk)
  obtain ⟨h1, _h2, _h3, _h4, _h5, _h6, _h7, _h8, _h9, _h10⟩ := h
  have hext := inv_run (acts ++ [Act.cancelCall, Act.cancelEmit, Act.cancelCall,
    Act.cancelEmit]) (initState exitOk) (inv_init exitOk)
  obtain ⟨_, hx2, _, _, _, _, _, _, _, _⟩ := hext
  refine ⟨cancelStep_snd_ok _, cancelStep_registry_false (cancelStep_fst_registry _),
    ?_, cancelStep_registry_false, ?_⟩
  · intro hnat
    cases hreg : (run (initState exitOk) acts).registry with
    | false => exact cancelStep_registry_false hreg
    | true =>
      have hev := (h1 hreg).1
      rw [hev] at hnat
      exact absurd hnat (by decide)
  · rw [hx2]
    split <;> omega

/-- Witness for C2 on a trace that has already completed naturally. -/
theorem c2_cancel_idempotent_witness :
    cancelStep (run (initState true)
        [Act.childExit, Act.selectNatural, Act.natRemove, Act.natEmitEv])
      = (run (initState true)
          [Act.childExit, Act.selectNatural, Act.natRemove, Act.natEmitEv],
         Except.ok ()) ∧
    (run (initState true)
        ([Act.childExit, Act.selectNatural, Act.natRemove, Act.natEmitEv]
          ++ [Act.cancelCall, Act.cancelEmit, Act.cancelCall,
              Act.cancelEmit])).events.count EvKind.cancelled ≤ 1 := by
  have h := c2_cancel_idempotent true
    [Act.childExit, Act.selectNatural, Act.natRemove, Act.natEmitEv]
  exact ⟨h.2.2.1 (by decide), h.2.2.2.2⟩

/-- Counterexample to claim C7 as stated: `cancel_ai_stream` emits the
"cancelled" event right after sending the oneshot (lib.rs lines 522-533),
without waiting for the watcher to terminate the process: here the event is
emitted while the process group has not been killed, so termination does NOT
strictly precede the emission. -/
theorem c7_cex :
    (run (initState true) [Act.cancelCall, Act.cancelEmit]).events
      = [EvKind.cancelled] ∧
    (run (initState true) [Act.cancelCall, Act.cancelEmit]).killed = false := by
  decide

/-- Claim C7 (amended): when cancel finds a registered entry it removes the
entry and signals the watcher, and emits "cancelled" without waiting for
termination; the group kill is performed by the watcher only after the cancel
signal (hence after the registry removal), and may complete before or after
the emission. -/
theorem c7_kill_after_signal (exitOk : Bool) (acts : List Act)
    (h : (run (initState exitOk) acts).killed = true) :
    (run (initState exitOk) acts).signal = true ∧
    (run (initState exitOk) acts).registry = false := by
  have hi := inv_run acts (initState exitOk) (inv_init exitOk)
  obtain ⟨_, _, _, _, _, _, _, h8, h9, _⟩ := hi
  exact ⟨h8 h, h9 (h8 h)⟩

/-- Witness for the amended C7 on a cancel trace that reaches the kill. -/
theorem c7_kill_after_signal_witness :
    (run (initState true) [Act.cancelCall, Act.selectCancel, Act.killGroup]).signal
      = true ∧
    (run (initState true) [Act.cancelCall, Act.selectCancel, Act.killGroup]).registry
      = false :=
  c7_kill_after_signal true [Act.cancelCall, Act.selectCancel, Act.killGroup]
    (by decide)

/-! ## Claims about start and the registry -/

/-- Claim C8: whenever `start` fails — the executable cannot be spawned, or an
expected stdout/stderr pipe is unavailable after spawn — the error is returned
synchronously, no registry entry is created for the identifier, and no
lifecycle or content events are emitted for that run (no event-emitting task
was spawned): the registry and event stream are unchanged on error. -/
theorem c8_start_failure (env : StartEnv) (command : Str) (requested : Option Str)
    (genId : Str) (h : Handle) (reg : List (Str × Handle))
    (hfail : env.spawnOk = false ∨ env.stdoutPipe = false ∨ env.stderrPipe = false) :
    (∃ msg, (startStep env command requested genId h reg).ret = Except.error msg) ∧
    (startStep env command requested genId h reg).reg = reg ∧
    (startStep env command requested genId h reg).eventsEmitted = [] ∧
    (startStep env command requested genId h reg).tasksSpawned = false := by
  unfold startStep
  split_ifs with hA hB hC
  · exact ⟨⟨_, rfl⟩, rfl, rfl, rfl⟩
  · exact ⟨⟨_, rfl⟩, rfl, rfl, rfl⟩
  · exact ⟨⟨_, rfl⟩, rfl, rfl, rfl⟩
  · rcases hfail with hf | hf | hf
    · exact absurd hf hA
    · exact absurd hf hB
    · exact absurd hf hC

/-- Witness for C8: spawn failure for `claude` on an empty registry. -/
theorem c8_start_failure_witness :
    (∃ msg, (startStep ⟨false, true, true⟩ (strL "claude") none (strL "gen") 7 []).ret
      = Except.error msg) ∧
    (startStep ⟨false, true, true⟩ (strL "claude") none (strL "gen") 7 []).reg = [] ∧
    (startStep ⟨false, true, true⟩ (strL "claude") none (strL "gen") 7
      []).eventsEmitted = [] ∧
    (startStep ⟨false, true, true⟩ (strL "claude") none (strL "gen") 7
      []).tasksSpawned = false :=
  c8_start_failure ⟨false, true, true⟩ (strL "claude") none (strL "gen") 7 []
    (Or.inl rfl)

/-- Counterexample to claim C9 as stated: starting with requested identifier
"req-1" while an entry for "req-1" (handle 0) is already registered SUCCEEDS
and silently replaces the prior entry with the new handle 1 —
`HashMap::insert` (lib.rs line 402) overwrites; there is no precondition
check. -/
theorem c9_cex :
    (startStep ⟨true, true, true⟩ (strL "claude") (some (strL "req-1"))
      (strL "gen") 1 [(strL "req-1", 0)]).ret = Except.ok (strL "req-1") ∧
    (startStep ⟨true, true, true⟩ (strL "claude") (some (strL "req-1"))
      (strL "gen") 1 [(strL "req-1", 0)]).reg = [(strL "req-1", 1)] ∧
    lookupReg (startStep ⟨true, true, true⟩ (strL "claude") (some (strL "req-1"))
      (strL "gen") 1 [(strL "req-1", 0)]).reg (strL "req-1") ≠ some 0 := by
  decide

theorem lookup_insertReg (reg : List (Str × Handle)) (k : Str) (h : Handle) :
    lookupReg (insertReg reg k h) k = some h := by
  induction reg with
  | nil => simp [insertReg, lookupReg]
  | cons p rest ih =>
    obtain ⟨k2, h2⟩ := p
    unfold insertReg
    by_cases hp : k2 = k
    · rw [if_pos hp]
      unfold lookupReg
      rw [if_pos hp]
    · rw [if_neg hp]
      unfold lookupReg
      rw [if_neg hp]
      exact ih

/-- Claim C9 (amended): registering a tracked process under an identifier
already present in the registry does not fail — the call succeeds and the
prior entry's control handles are silently replaced by the new ones
(`HashMap::insert` semantics). -/
theorem c9_insert_replaces (command genId id : Str) (hOld hNew : Handle)
    (reg : List (Str × Handle)) (_hmem : lookupReg reg id = some hOld) :
    (startStep ⟨true, true, true⟩ command (some id) genId hNew reg).ret
      = Except.ok id ∧
    (startStep ⟨true, true, true⟩ command (some id) genId hNew reg).reg
      = insertReg reg id hNew ∧
    lookupReg (startStep ⟨true, true, true⟩ command (some id) genId hNew reg).reg id
      = some hNew := by
  refine ⟨rfl, rfl, ?_⟩
  show lookupReg (insertReg reg id hNew) id = some hNew
  exact lookup_insertReg reg id hNew

/-- Witness for the amended C9 at an occupied identifier. -/
theorem c9_insert_replaces_witness :
    (startStep ⟨true, true, true⟩ (strL "codex") (some (strL "req-1"))
      (strL "gen") 1 [(strL "req-1", 0)]).ret = Except.ok (strL "req-1") ∧
    (startStep ⟨true, true, true⟩ (strL "codex") (some (strL "req-1"))
      (strL "gen") 1 [(strL "req-1", 0)]).reg
      = insertReg [(strL "req-1", 0)] (strL "req-1") 1 ∧
    lookupReg (startStep ⟨true, true, true⟩ (strL "codex") (some (strL "req-1"))
      (strL "gen") 1 [(strL "req-1", 0)]).reg (strL "req-1") = some 1 :=
  c9_insert_replaces (strL "codex") (strL "gen") (strL "req-1") 0 1
    [(strL "req-1", 0)] rfl
